import Mathlib

/-!
Verification of the image-tools color/pixel data model.

The TypeScript sources are embedded shallowly:
* JS integer-valued `number` arithmetic is modelled on `ℤ`; the JS remainder
  operator `%` on integers is truncated remainder, i.e. `Int.tmod`.
* The IEEE-754 binary64 arithmetic inside `Color.composite` is modelled
  exactly on `ℚ`: every double is an exact rational, and each operation
  applies round-to-nearest-even at 53-bit precision (`roundB64`);
  `Math.round` is `⌊q + 1/2⌋` on the resulting double.
* The special values `NaN`/`Infinity` relevant to the `Color` constructor
  check are modelled by the dedicated type `JSNum`.
* JS strings are modelled as `List Char`; JS arrays as Lean lists, with
  element holes (from writing past the end) modelled by `Option`.
-/

namespace ImageTools

/-- JS `Math.round` on rationals: round half toward positive infinity. -/
def jround (q : ℚ) : ℤ := ⌊q + 1/2⌋

/-- `Color` from `src/image/color/src/color.ts`: four channels, stored
exactly as the constructor computed them (the constructor's JS `%` can
leave negative values in place, so the fields live in `ℤ`). -/
structure Color where
  r : ℤ
  g : ℤ
  b : ℤ
  a : ℤ
deriving DecidableEq, Repr

/-- The `Color` constructor on integer inputs (`color.ts` lines 37–45):
after the NaN check (vacuous on integers) each channel is reduced by the
JS remainder `x % 256`, which for integers is truncated remainder. -/
def Color.make (r g b a : ℤ) : Color :=
  ⟨Int.tmod r 256, Int.tmod g 256, Int.tmod b 256, Int.tmod a 256⟩

/-- All four channels lie in `[0, 255]` (the spec's 8-bit channel range). -/
def Color.InRange (c : Color) : Prop :=
  0 ≤ c.r ∧ c.r ≤ 255 ∧ 0 ≤ c.g ∧ c.g ≤ 255 ∧
    0 ≤ c.b ∧ c.b ≤ 255 ∧ 0 ≤ c.a ∧ c.a ≤ 255

instance (c : Color) : Decidable c.InRange := by
  unfold Color.InRange; infer_instance

/-- The Porter-Duff "over" operator exactly as the spec words it
(spec §4.1): the short-circuit on `ra = 0`, otherwise per-channel
`round((top.c*ta + bottom.c*ba*(1-ta))/ra)` and alpha `round(ra*255)`,
with no constructor normalization applied afterwards. -/
def specOver (top bottom : Color) : Color :=
  let ta : ℚ := (top.a : ℚ) / 255
  let ba : ℚ := (bottom.a : ℚ) / 255
  let ra : ℚ := ta + ba * (1 - ta)
  if ra = 0 then ⟨0, 0, 0, 0⟩
  else
    ⟨jround (((top.r : ℚ) * ta + (bottom.r : ℚ) * ba * (1 - ta)) / ra),
     jround (((top.g : ℚ) * ta + (bottom.g : ℚ) * ba * (1 - ta)) / ra),
     jround (((top.b : ℚ) * ta + (bottom.b : ℚ) * ba * (1 - ta)) / ra),
     jround (ra * 255)⟩

/-- Round to nearest integer, ties to even (the IEEE-754 significand
rounding used by every binary64 arithmetic operation). -/
def rhe (q : ℚ) : ℤ :=
  if q - ⌊q⌋ < 1/2 then ⌊q⌋
  else if 1/2 < q - ⌊q⌋ then ⌊q⌋ + 1
  else if ⌊q⌋ % 2 = 0 then ⌊q⌋ else ⌊q⌋ + 1

lemma rhe_eq_of_lt (q : ℚ) (f : ℤ) (h1 : ⌊q⌋ = f) (h2 : q - f < 1/2) : rhe q = f := by
  unfold rhe
  rw [h1, if_pos h2]

lemma rhe_eq_of_gt (q : ℚ) (f : ℤ) (h1 : ⌊q⌋ = f) (h2 : 1/2 < q - f) : rhe q = f + 1 := by
  unfold rhe
  rw [h1, if_neg (by linarith), if_pos h2]

/-- Binary64 rounding of a positive rational in the normal range: with
`e = ⌊log₂ q⌋`, the significand `q / 2^(e-52)` is rounded to the nearest
integer, ties to even. -/
def roundB64Pos (q : ℚ) : ℚ :=
  (rhe (q / 2 ^ (Int.log 2 q - 52)) : ℚ) * 2 ^ (Int.log 2 q - 52)

/-- IEEE-754 binary64 round-to-nearest-even on exact rationals. All
values arising in this development lie far inside the normal range, so
overflow and subnormal rounding never occur and are not modelled. -/
def roundB64 (q : ℚ) : ℚ :=
  if q = 0 then 0
  else if q < 0 then -roundB64Pos (-q)
  else roundB64Pos q

lemma roundB64_zero : roundB64 0 = 0 := by
  unfold roundB64
  rw [if_pos rfl]

lemma roundB64_pos_eq (q : ℚ) (e : ℤ) (h0 : 0 < q) (h1 : 2 ^ e ≤ q) (h2 : q < 2 ^ (e + 1)) :
    roundB64 q = (rhe (q / 2 ^ (e - 52)) : ℚ) * 2 ^ (e - 52) := by
  have hcast : ((2 : ℕ) : ℚ) = (2 : ℚ) := by norm_num
  have hA : (2 : ℚ) ^ Int.log 2 q ≤ q := by
    have hx := Int.zpow_log_le_self (b := 2) (R := ℚ) (by norm_num) h0
    rwa [hcast] at hx
  have hB : q < (2 : ℚ) ^ (Int.log 2 q + 1) := by
    have hx := Int.lt_zpow_succ_log_self (b := 2) (R := ℚ) (by norm_num) q
    rwa [hcast] at hx
  have hlog : Int.log 2 q = e := by
    by_contra hne
    rcases lt_or_gt_of_ne hne with hlt | hgt
    · have hle : (2 : ℚ) ^ (Int.log 2 q + 1) ≤ 2 ^ e :=
        zpow_le_zpow_right₀ (by norm_num) (by omega)
      linarith
    · have hle : (2 : ℚ) ^ (e + 1) ≤ 2 ^ Int.log 2 q :=
        zpow_le_zpow_right₀ (by norm_num) (by omega)
      linarith
  rw [roundB64, if_neg (ne_of_gt h0), if_neg (not_lt.mpr (le_of_lt h0)), roundB64Pos, hlog]

/-- The four JS arithmetic operations: exact result, rounded to binary64. -/
def jadd (x y : ℚ) : ℚ := roundB64 (x + y)

/-- JS binary64 subtraction. -/
def jsub (x y : ℚ) : ℚ := roundB64 (x - y)

/-- JS binary64 multiplication. -/
def jmul (x y : ℚ) : ℚ := roundB64 (x * y)

/-- JS binary64 division. -/
def jdiv (x y : ℚ) : ℚ := roundB64 (x / y)

lemma jmul_zero_left (x : ℚ) : jmul 0 x = 0 := by
  rw [jmul, zero_mul, roundB64_zero]

lemma jdiv_zero_left (x : ℚ) : jdiv 0 x = 0 := by
  rw [jdiv, zero_div, roundB64_zero]

lemma jadd_zero_zero : jadd 0 0 = 0 := by
  rw [jadd, add_zero, roundB64_zero]

/-- `Color.composite` (`color.ts` lines 129–160): the JS program evaluates
these expressions in IEEE-754 binary64, so every arithmetic operation is
rounded to double precision; `Math.round` is `⌊x + 1/2⌋` on the resulting
double, and the results pass through the normal constructor. -/
def Color.composite (top bottom : Color) : Color :=
  let topAlpha : ℚ := jdiv (top.a : ℚ) 255
  let bottomAlpha : ℚ := jdiv (bottom.a : ℚ) 255
  let resultAlpha : ℚ := jadd topAlpha (jmul bottomAlpha (jsub 1 topAlpha))
  if resultAlpha = 0 then Color.make 0 0 0 0
  else
    Color.make
      (jround (jdiv (jadd (jmul (top.r : ℚ) topAlpha)
        (jmul (jmul (bottom.r : ℚ) bottomAlpha) (jsub 1 topAlpha))) resultAlpha))
      (jround (jdiv (jadd (jmul (top.g : ℚ) topAlpha)
        (jmul (jmul (bottom.g : ℚ) bottomAlpha) (jsub 1 topAlpha))) resultAlpha))
      (jround (jdiv (jadd (jmul (top.b : ℚ) topAlpha)
        (jmul (jmul (bottom.b : ℚ) bottomAlpha) (jsub 1 topAlpha))) resultAlpha))
      (jround (jmul resultAlpha 255))

/-- `compositeOver` (`color.ts` lines 167–169). -/
def Color.compositeOver (top bottom : Color) : Color := Color.composite top bottom

lemma composite_tie_red_eval :
    (Color.composite (Color.make 5 0 0 2) (Color.make 174 0 0 6)).r = 131 := by
  have htop : Color.make 5 0 0 2 = ⟨5, 0, 0, 2⟩ := by decide
  have hbot : Color.make 174 0 0 6 = ⟨174, 0, 0, 6⟩ := by decide
  rw [htop, hbot]
  simp only [Color.composite]
  push_cast
  have hta : jdiv 2 255 = ((282578800148737 : ℚ) / 36028797018963968) := by
    rw [jdiv, roundB64_pos_eq (2 / 255 : ℚ) (-7) (by norm_num) (by norm_num) (by norm_num),
      rhe_eq_of_lt _ 4521260802379792 (by norm_num) (by norm_num)]
    norm_num
  have hba : jdiv 6 255 = ((847736400446211 : ℚ) / 36028797018963968) := by
    rw [jdiv, roundB64_pos_eq (6 / 255 : ℚ) (-6) (by norm_num) (by norm_num) (by norm_num),
      rhe_eq_of_lt _ 6781891203569688 (by norm_num) (by norm_num)]
    norm_num
  have hone : jsub 1 ((282578800148737 : ℚ) / 36028797018963968) = ((139633664917247 : ℚ) / 140737488355328) := by
    rw [jsub, roundB64_pos_eq (1 - ((282578800148737 : ℚ) / 36028797018963968) : ℚ) (-1) (by norm_num) (by norm_num) (by norm_num),
      rhe_eq_of_gt _ 8936554554703807 (by norm_num) (by norm_num)]
    norm_num
  have hu : jmul ((847736400446211 : ℚ) / 36028797018963968) ((139633664917247 : ℚ) / 140737488355328) = ((6728699900012279 : ℚ) / 288230376151711744) := by
    rw [jmul, roundB64_pos_eq (((847736400446211 : ℚ) / 36028797018963968) * ((139633664917247 : ℚ) / 140737488355328) : ℚ) (-6) (by norm_num) (by norm_num) (by norm_num),
      rhe_eq_of_gt _ 6728699900012278 (by norm_num) (by norm_num)]
    norm_num
  have hra : jadd ((282578800148737 : ℚ) / 36028797018963968) ((6728699900012279 : ℚ) / 288230376151711744) = ((8989330301202175 : ℚ) / 288230376151711744) := by
    rw [jadd, roundB64_pos_eq (((282578800148737 : ℚ) / 36028797018963968) + ((6728699900012279 : ℚ) / 288230376151711744) : ℚ) (-6) (by norm_num) (by norm_num) (by norm_num),
      rhe_eq_of_lt _ 8989330301202175 (by norm_num) (by norm_num)]
    norm_num
  have ht1 : jmul 5 ((282578800148737 : ℚ) / 36028797018963968) = ((1412894000743685 : ℚ) / 36028797018963968) := by
    rw [jmul, roundB64_pos_eq (5 * ((282578800148737 : ℚ) / 36028797018963968) : ℚ) (-5) (by norm_num) (by norm_num) (by norm_num),
      rhe_eq_of_lt _ 5651576002974740 (by norm_num) (by norm_num)]
    norm_num
  have ht2 : jmul 174 ((847736400446211 : ℚ) / 36028797018963968) = ((144048958669571 : ℚ) / 35184372088832) := by
    rw [jmul, roundB64_pos_eq (174 * ((847736400446211 : ℚ) / 36028797018963968) : ℚ) (2) (by norm_num) (by norm_num) (by norm_num),
      rhe_eq_of_lt _ 4609566677426272 (by norm_num) (by norm_num)]
    norm_num
  have ht3 : jmul ((144048958669571 : ℚ) / 35184372088832) ((139633664917247 : ℚ) / 140737488355328) = ((4573413213289595 : ℚ) / 1125899906842624) := by
    rw [jmul, roundB64_pos_eq (((144048958669571 : ℚ) / 35184372088832) * ((139633664917247 : ℚ) / 140737488355328) : ℚ) (2) (by norm_num) (by norm_num) (by norm_num),
      rhe_eq_of_lt _ 4573413213289595 (by norm_num) (by norm_num)]
    norm_num
  have hnum : jadd ((1412894000743685 : ℚ) / 36028797018963968) ((4573413213289595 : ℚ) / 1125899906842624) = ((4617566150812835 : ℚ) / 1125899906842624) := by
    rw [jadd, roundB64_pos_eq (((1412894000743685 : ℚ) / 36028797018963968) + ((4573413213289595 : ℚ) / 1125899906842624) : ℚ) (2) (by norm_num) (by norm_num) (by norm_num),
      rhe_eq_of_lt _ 4617566150812835 (by norm_num) (by norm_num)]
    norm_num
  have hq : jdiv ((4617566150812835 : ℚ) / 1125899906842624) ((8989330301202175 : ℚ) / 288230376151711744) = ((4626744929681407 : ℚ) / 35184372088832) := by
    rw [jdiv, roundB64_pos_eq (((4617566150812835 : ℚ) / 1125899906842624) / ((8989330301202175 : ℚ) / 288230376151711744) : ℚ) (7) (by norm_num) (by norm_num) (by norm_num),
      rhe_eq_of_lt _ 4626744929681407 (by norm_num) (by norm_num)]
    norm_num
  rw [hta, hba, hone, hu, hra,
    if_neg (by norm_num : ¬ (((8989330301202175 : ℚ) / 288230376151711744) = (0 : ℚ))),
    ht1, ht2, ht3, hnum, hq]
  have hjr : jround ((4626744929681407 : ℚ) / 35184372088832) = 131 := by norm_num [jround]
  rw [hjr]
  show Int.tmod 131 256 = 131
  decide

lemma composite_blend_eval :
    Color.composite (Color.make 255 0 0 128) (Color.make 0 0 255 255) = ⟨128, 0, 127, 255⟩ := by
  have htop : Color.make 255 0 0 128 = ⟨255, 0, 0, 128⟩ := by decide
  have hbot : Color.make 0 0 255 255 = ⟨0, 0, 255, 255⟩ := by decide
  rw [htop, hbot]
  simp only [Color.composite]
  push_cast
  have hta : jdiv 128 255 = ((282578800148737 : ℚ) / 562949953421312) := by
    rw [jdiv, roundB64_pos_eq (128 / 255 : ℚ) (-1) (by norm_num) (by norm_num) (by norm_num),
      rhe_eq_of_lt _ 4521260802379792 (by norm_num) (by norm_num)]
    norm_num
  have hba : jdiv 255 255 = (1 : ℚ) := by
    rw [jdiv, roundB64_pos_eq (255 / 255 : ℚ) (0) (by norm_num) (by norm_num) (by norm_num),
      rhe_eq_of_lt _ 4503599627370496 (by norm_num) (by norm_num)]
    norm_num
  have hone : jsub 1 ((282578800148737 : ℚ) / 562949953421312) = ((280371153272575 : ℚ) / 562949953421312) := by
    rw [jsub, roundB64_pos_eq (1 - ((282578800148737 : ℚ) / 562949953421312) : ℚ) (-2) (by norm_num) (by norm_num) (by norm_num),
      rhe_eq_of_lt _ 8971876904722400 (by norm_num) (by norm_num)]
    norm_num
  have hu : jmul (1 : ℚ) ((280371153272575 : ℚ) / 562949953421312) = ((280371153272575 : ℚ) / 562949953421312) := by
    rw [jmul, roundB64_pos_eq ((1 : ℚ) * ((280371153272575 : ℚ) / 562949953421312) : ℚ) (-2) (by norm_num) (by norm_num) (by norm_num),
      rhe_eq_of_lt _ 8971876904722400 (by norm_num) (by norm_num)]
    norm_num
  have hra : jadd ((282578800148737 : ℚ) / 562949953421312) ((280371153272575 : ℚ) / 562949953421312) = (1 : ℚ) := by
    rw [jadd, roundB64_pos_eq (((282578800148737 : ℚ) / 562949953421312) + ((280371153272575 : ℚ) / 562949953421312) : ℚ) (0) (by norm_num) (by norm_num) (by norm_num),
      rhe_eq_of_lt _ 4503599627370496 (by norm_num) (by norm_num)]
    norm_num
  have hp1 : jmul 255 ((282578800148737 : ℚ) / 562949953421312) = (128 : ℚ) := by
    rw [jmul, roundB64_pos_eq (255 * ((282578800148737 : ℚ) / 562949953421312) : ℚ) (6) (by norm_num) (by norm_num) (by norm_num),
      rhe_eq_of_gt _ 9007199254740991 (by norm_num) (by norm_num)]
    norm_num
  have hsr : jadd (128 : ℚ) 0 = (128 : ℚ) := by
    rw [jadd, roundB64_pos_eq ((128 : ℚ) + 0 : ℚ) (7) (by norm_num) (by norm_num) (by norm_num),
      rhe_eq_of_lt _ 4503599627370496 (by norm_num) (by norm_num)]
    norm_num
  have hqr : jdiv (128 : ℚ) (1 : ℚ) = (128 : ℚ) := by
    rw [jdiv, roundB64_pos_eq ((128 : ℚ) / (1 : ℚ) : ℚ) (7) (by norm_num) (by norm_num) (by norm_num),
      rhe_eq_of_lt _ 4503599627370496 (by norm_num) (by norm_num)]
    norm_num
  have ht2A : jmul 255 (1 : ℚ) = (255 : ℚ) := by
    rw [jmul, roundB64_pos_eq (255 * (1 : ℚ) : ℚ) (7) (by norm_num) (by norm_num) (by norm_num),
      rhe_eq_of_lt _ 8972014882652160 (by norm_num) (by norm_num)]
    norm_num
  have ht3A : jmul (255 : ℚ) ((280371153272575 : ℚ) / 562949953421312) = (127 : ℚ) := by
    rw [jmul, roundB64_pos_eq ((255 : ℚ) * ((280371153272575 : ℚ) / 562949953421312) : ℚ) (6) (by norm_num) (by norm_num) (by norm_num),
      rhe_eq_of_lt _ 8936830510563328 (by norm_num) (by norm_num)]
    norm_num
  have hsb : jadd 0 (127 : ℚ) = (127 : ℚ) := by
    rw [jadd, roundB64_pos_eq (0 + (127 : ℚ) : ℚ) (6) (by norm_num) (by norm_num) (by norm_num),
      rhe_eq_of_lt _ 8936830510563328 (by norm_num) (by norm_num)]
    norm_num
  have hqb : jdiv (127 : ℚ) (1 : ℚ) = (127 : ℚ) := by
    rw [jdiv, roundB64_pos_eq ((127 : ℚ) / (1 : ℚ) : ℚ) (6) (by norm_num) (by norm_num) (by norm_num),
      rhe_eq_of_lt _ 8936830510563328 (by norm_num) (by norm_num)]
    norm_num
  have hpa : jmul (1 : ℚ) 255 = (255 : ℚ) := by
    rw [jmul, roundB64_pos_eq ((1 : ℚ) * 255 : ℚ) (7) (by norm_num) (by norm_num) (by norm_num),
      rhe_eq_of_lt _ 8972014882652160 (by norm_num) (by norm_num)]
    norm_num
  rw [hta, hba, hone, hu, hra,
    if_neg (by norm_num : ¬ ((1 : ℚ) = 0)),
    jmul_zero_left, jmul_zero_left, hp1, ht2A]
  rw [jmul_zero_left, ht3A, hsr, hsb, jadd_zero_zero, hqr, hqb, jdiv_zero_left, hpa]
  have hj128 : jround (128 : ℚ) = 128 := by norm_num [jround]
  have hj0 : jround (0 : ℚ) = 0 := by norm_num [jround]
  have hj127 : jround (127 : ℚ) = 127 := by norm_num [jround]
  have hj255 : jround (255 : ℚ) = 255 := by norm_num [jround]
  rw [hj128, hj0, hj127, hj255]
  decide

lemma specOver_tie_red_eval :
    (specOver (Color.make 5 0 0 2) (Color.make 174 0 0 6)).r = 132 := by
  have htop : Color.make 5 0 0 2 = ⟨5, 0, 0, 2⟩ := by decide
  have hbot : Color.make 174 0 0 6 = ⟨174, 0, 0, 6⟩ := by decide
  rw [htop, hbot]
  norm_num [specOver, jround]

/-- C1 counterexample: the program evaluates the over formula in binary64
doubles, not exact arithmetic. For top `(5,0,0,2)` over bottom
`(174,0,0,6)` the exact red channel is `131.5`, but the double
computation lands strictly below the tie, so `Math.round` gives `131`
while the spec formula rounds `131.5` up to `132`. -/
theorem composite_tie_counterexample :
    (Color.composite (Color.make 5 0 0 2) (Color.make 174 0 0 6)).r = 131 ∧
    (specOver (Color.make 5 0 0 2) (Color.make 174 0 0 6)).r = 132 :=
  ⟨composite_tie_red_eval, specOver_tie_red_eval⟩

/-- C1 amended: `Composite` evaluates the Porter-Duff over formula in
IEEE-754 double precision (each arithmetic operation correctly rounded to
binary64), then applies `Math.round` and the normal constructor. When
both inputs are fully transparent the result is exactly `(0,0,0,0)`. The
double evaluation can differ from the exact formula at `.5` rounding
ties: `(5,0,0,2)` over `(174,0,0,6)` yields red `131` where the exact
formula gives `round(131.5) = 132`. The blend example
`Composite(Color(255,0,0,128), Color(0,0,255,255))` still equals exactly
`(128,0,127,255)`. -/
theorem composite_double_semantics :
    (∀ top bottom : Color, top.a = 0 → bottom.a = 0 →
      Color.composite top bottom = ⟨0, 0, 0, 0⟩) ∧
    Color.composite (Color.make 255 0 0 128) (Color.make 0 0 255 255) = ⟨128, 0, 127, 255⟩ ∧
    (Color.composite (Color.make 5 0 0 2) (Color.make 174 0 0 6)).r = 131 ∧
    (specOver (Color.make 5 0 0 2) (Color.make 174 0 0 6)).r = 132 := by
  refine ⟨?_, composite_blend_eval, composite_tie_red_eval, specOver_tie_red_eval⟩
  intro top bottom ht hb
  simp only [Color.composite, ht, hb, Int.cast_zero]
  rw [show jdiv (0 : ℚ) 255 = 0 from jdiv_zero_left 255, jmul_zero_left, jadd_zero_zero,
    if_pos rfl]
  decide

/-- Witness for C1 at two concrete fully transparent colors. -/
theorem composite_double_semantics_witness :
    Color.composite (Color.make 0 0 0 0) (Color.make 10 20 30 0) = ⟨0, 0, 0, 0⟩ :=
  composite_double_semantics.1 (Color.make 0 0 0 0) (Color.make 10 20 30 0)
    (by decide) (by decide)

/-- C2 counterexample: the constructor does not use negative-safe modulo;
for the input `-1` the red channel is `-1`, not `((-1 mod 256)+256) mod 256
= 255`. -/
theorem color_negative_mod_counterexample :
    ¬ ((Color.make (-1) 0 0 0).r = (((-1) % 256) + 256) % 256) := by decide

/-- C2 amended: every channel is the JS truncated remainder `tmod 256`
(sign of the input preserved); for nonnegative inputs this agrees with the
claimed `((c mod 256)+256) mod 256`, and `Color(256,300,400,500)` is
exactly `(0,44,144,244)`. -/
theorem color_make_channels (r g b a : ℤ) :
    Color.make r g b a = ⟨Int.tmod r 256, Int.tmod g 256, Int.tmod b 256, Int.tmod a 256⟩ ∧
    (0 ≤ r → (Color.make r g b a).r = ((r % 256) + 256) % 256) ∧
    (0 ≤ g → (Color.make r g b a).g = ((g % 256) + 256) % 256) ∧
    (0 ≤ b → (Color.make r g b a).b = ((b % 256) + 256) % 256) ∧
    (0 ≤ a → (Color.make r g b a).a = ((a % 256) + 256) % 256) ∧
    Color.make 256 300 400 500 = ⟨0, 44, 144, 244⟩ := by
  refine ⟨rfl, ?_, ?_, ?_, ?_, by decide⟩ <;> intro h <;> simp only [Color.make] <;>
    rw [Int.tmod_eq_emod h (by norm_num)] <;> omega

/-- Witness for C2 at a concrete nonnegative input. -/
theorem color_make_channels_witness :
    (Color.make 300 1 2 3).r = ((300 % 256) + 256) % 256 :=
  (color_make_channels 300 1 2 3).2.1 (by norm_num)

/-- A JS `number` as far as the `Color` constructor's check can tell:
NaN, the two infinities, or a finite value. -/
inductive JSNum where
  | nan : JSNum
  | posInf : JSNum
  | negInf : JSNum
  | finite : ℚ → JSNum
deriving DecidableEq, Repr

/-- JS `isNaN` (on numbers): true exactly on NaN. -/
def JSNum.isNaN : JSNum → Bool
  | .nan => true
  | _ => false

/-- JS `isFinite`: false on NaN and on both infinities. -/
def JSNum.isFinite : JSNum → Bool
  | .finite _ => true
  | _ => false

/-- Truncation toward zero, as used by the JS remainder operator. -/
def rtrunc (q : ℚ) : ℤ := if 0 ≤ q then ⌊q⌋ else ⌈q⌉

/-- JS `x % 256` on a general number: NaN for NaN and for the infinities,
and the floating-point remainder (truncated division) for finite values. -/
def JSNum.mod256 : JSNum → JSNum
  | .finite q => .finite (q - 256 * rtrunc (q / 256))
  | _ => .nan

/-- A color as built by the constructor from general JS numbers; channels
can be NaN when an infinity slipped past the `isNaN` check. -/
structure JSColor where
  r : JSNum
  g : JSNum
  b : JSNum
  a : JSNum
deriving DecidableEq, Repr

/-- The `Color` constructor on general JS numbers (`color.ts` lines
37–45): it throws `Invalid color components` iff some input `isNaN`, and
otherwise stores each input reduced by `% 256`. -/
def jsColorCtor (r g b a : JSNum) : Except String JSColor :=
  if r.isNaN || g.isNaN || b.isNaN || a.isNaN then
    .error "Invalid color components"
  else
    .ok ⟨r.mod256, g.mod256, b.mod256, a.mod256⟩

/-- C5 counterexample: the constructor succeeds on the non-finite input
`Infinity` (producing a NaN red channel), while the claim demands failure
for every non-finite input. -/
theorem jsColorCtor_accepts_infinity :
    jsColorCtor .posInf (.finite 0) (.finite 0) (.finite 0) =
      .ok ⟨.nan, .finite 0, .finite 0, .finite 0⟩ ∧
    JSNum.isFinite .posInf = false := by
  constructor
  · show jsColorCtor .posInf (.finite 0) (.finite 0) (.finite 0) = _
    have h0 : rtrunc 0 = 0 := by norm_num [rtrunc]
    have : JSNum.mod256 (.finite 0) = .finite 0 := by
      simp [JSNum.mod256, h0]
    simp [jsColorCtor, JSNum.isNaN, JSNum.mod256, this, h0]
  · rfl

/-- C5 amended: the constructor fails iff at least one input is NaN;
infinite inputs are accepted (their channel becomes NaN via `% 256`). -/
theorem jsColorCtor_fails_iff_nan (r g b a : JSNum) :
    (∃ e, jsColorCtor r g b a = .error e) ↔
      (r.isNaN = true ∨ g.isNaN = true ∨ b.isNaN = true ∨ a.isNaN = true) := by
  unfold jsColorCtor
  split_ifs with h
  · simp only [Bool.or_eq_true] at h
    constructor
    · intro _; tauto
    · intro _; exact ⟨_, rfl⟩
  · simp only [Bool.or_eq_true] at h
    push_neg at h
    constructor
    · rintro ⟨e, he⟩; cases he
    · intro hc
      rcases hc with hc | hc | hc | hc <;> simp [hc] at h

/-- `Pixel` from `src/image/core` (`pixel.ts`): a 2D coordinate with
integer components (negative values permitted structurally). -/
structure Pixel where
  x : ℤ
  y : ℤ
deriving DecidableEq, Repr

/-- `Pixel.nextPixel` (`pixel.ts`): the row-major successor, or `none` at
the end of the traversal. -/
def Pixel.nextPixel (p : Pixel) (width height : ℤ) : Option Pixel :=
  if p.x + 1 ≥ width then
    if p.y + 1 ≥ height then none else some ⟨0, p.y + 1⟩
  else some ⟨p.x + 1, p.y⟩

/-- `Pixel.transform` (`pixel.ts`): applies `xTransform` to `x` and
`yTransform` to `y`; when `yTransform` is absent it falls back to
`fun y => xTransform y`. -/
def Pixel.transform (p : Pixel) (xTransform : ℤ → ℤ)
    (yTransform : Option (ℤ → ℤ)) : Pixel :=
  let yTransformCopy : ℤ → ℤ :=
    match yTransform with
    | some f => f
    | none => fun y => xTransform y
  ⟨xTransform p.x, yTransformCopy p.y⟩

/-- C8: `Transform(fx, fy)` returns `(fx(x), fy(y))`, and when `fy` is
omitted the x-transform is applied to the y axis as well. -/
theorem transform_componentwise (p : Pixel) (fx fy : ℤ → ℤ) :
    p.transform fx (some fy) = ⟨fx p.x, fy p.y⟩ ∧
    p.transform fx none = ⟨fx p.x, fx p.y⟩ :=
  ⟨rfl, rfl⟩

/-- The `Image` iterator (`part_001` lines 160–173) run to completion:
yield the current pixel, then continue from `nextPixel`; `fuel` bounds the
number of yielded pixels and is chosen large enough to reach the end. -/
def iterFrom (width height : ℤ) : Pixel → ℕ → List Pixel
  | _, 0 => []
  | p, fuel + 1 =>
    p :: (match p.nextPixel width height with
          | none => []
          | some q => iterFrom width height q fuel)

/-- Row-major enumeration of `[0,w) × [0,h)` as the spec words it. -/
def rowMajorList (w h : ℕ) : List Pixel :=
  (List.range h).flatMap fun (y : ℕ) => (List.range w).map fun (x : ℕ) =>
    (⟨(x : ℤ), (y : ℤ)⟩ : Pixel)

/-- The suffix of the row-major enumeration that starts at `(x, y)`. -/
def tailFrom (w h x y : ℕ) : List Pixel :=
  ((List.range' x (w - x)).map fun (i : ℕ) => (⟨(i : ℤ), (y : ℤ)⟩ : Pixel)) ++
    ((List.range' (y + 1) (h - (y + 1))).flatMap
      fun (r : ℕ) => (List.range w).map fun (c : ℕ) => (⟨(c : ℤ), (r : ℤ)⟩ : Pixel))

lemma iterFrom_eq_tailFrom (w h : ℕ) :
    ∀ fuel x y, x < w → y < h → (h - y) * w - x ≤ fuel →
      iterFrom w h ⟨(x : ℤ), (y : ℤ)⟩ fuel = tailFrom w h x y := by
  intro fuel
  induction fuel with
  | zero =>
    intro x y hx hy hfuel
    exfalso
    have h1 : w ≤ (h - y) * w := Nat.le_mul_of_pos_left w (by omega)
    omega
  | succ n ih =>
    intro x y hx hy hfuel
    by_cases hxe : x + 1 < w
    · have hcond : ¬ ((x : ℤ) + 1 ≥ (w : ℤ)) := by omega
      have hnext : Pixel.nextPixel ⟨(x : ℤ), (y : ℤ)⟩ w h = some ⟨(x : ℤ) + 1, (y : ℤ)⟩ := by
        simp [Pixel.nextPixel, hcond]
      have hx1 : ((x + 1 : ℕ) : ℤ) = (x : ℤ) + 1 := by push_cast; ring
      have hrec := ih (x + 1) y hxe hy (by omega)
      rw [hx1] at hrec
      have hsplit : w - x = (w - (x + 1)) + 1 := by omega
      simp only [iterFrom, hnext, hrec, tailFrom, hsplit, List.range'_succ, List.map_cons,
        List.cons_append]
    · -- x = w - 1: end of row
      have hcond : ((x : ℤ) + 1 ≥ (w : ℤ)) := by omega
      have hwx : w - x = 1 := by omega
      by_cases hye : y + 1 < h
      · have hcond2 : ¬ ((y : ℤ) + 1 ≥ (h : ℤ)) := by omega
        have hnext : Pixel.nextPixel ⟨(x : ℤ), (y : ℤ)⟩ w h = some ⟨0, (y : ℤ) + 1⟩ := by
          simp [Pixel.nextPixel, hcond, hcond2]
        have hy1 : ((y + 1 : ℕ) : ℤ) = (y : ℤ) + 1 := by push_cast; ring
        have hmul : (h - y) * w = (h - (y + 1)) * w + w := by
          have hsy : h - y = (h - (y + 1)) + 1 := by omega
          rw [hsy, Nat.succ_mul]
        have hrec := ih 0 (y + 1) (by omega) hye (by omega)
        rw [hy1, Nat.cast_zero] at hrec
        simp only [iterFrom, hnext, hrec]
        have hrows : h - (y + 1) = (h - (y + 2)) + 1 := by omega
        simp only [tailFrom, hwx, Nat.sub_zero, hrows, List.range'_succ, List.flatMap_cons,
          List.map_cons, List.range'_one, List.map_nil, List.cons_append, List.nil_append,
          List.range_eq_range']
        have : h - (y + 1 + 1) = h - (y + 2) := by omega
        rw [this]
        simp
      · have hcond2 : ((y : ℤ) + 1 ≥ (h : ℤ)) := by omega
        have hnext : Pixel.nextPixel ⟨(x : ℤ), (y : ℤ)⟩ w h = none := by
          simp [Pixel.nextPixel, hcond, hcond2]
        have hrows : h - (y + 1) = 0 := by omega
        simp only [iterFrom, hnext, tailFrom, hwx, hrows, List.range'_one, List.range'_zero,
          List.flatMap_nil, List.map_cons, List.map_nil, List.cons_append, List.nil_append,
          List.append_nil]

lemma tailFrom_zero (w h : ℕ) (hh : 1 ≤ h) : tailFrom w h 0 0 = rowMajorList w h := by
  unfold tailFrom rowMajorList
  have hr : List.range h = 0 :: List.range' 1 (h - 1) := by
    conv_lhs => rw [List.range_eq_range', show h = (h - 1) + 1 by omega, List.range'_succ]
  rw [hr, List.flatMap_cons]
  simp [List.range_eq_range']

lemma rowMajorList_length (w h : ℕ) : (rowMajorList w h).length = w * h := by
  induction h with
  | zero => simp [rowMajorList]
  | succ n ih =>
    unfold rowMajorList at ih ⊢
    rw [List.range_succ, List.flatMap_append, List.length_append, ih]
    simp [Nat.mul_succ]

lemma rowMajorList_nodup (w h : ℕ) : (rowMajorList w h).Nodup := by
  unfold rowMajorList
  rw [List.nodup_flatMap]
  constructor
  · intro y _
    apply List.Nodup.map _ (List.nodup_range w)
    intro a b hab
    have := congrArg Pixel.x hab
    simpa using this
  · have hlt : List.Pairwise (· < ·) (List.range h) := List.pairwise_lt_range h
    apply hlt.imp
    intro a b hab
    simp only [Function.onFun, List.disjoint_left]
    intro p hp1 hp2
    simp only [List.mem_map, List.mem_range] at hp1 hp2
    obtain ⟨xa, -, ha⟩ := hp1
    obtain ⟨xb, -, hb⟩ := hp2
    have h1 : p.y = (a : ℤ) := by rw [← ha]
    have h2 : p.y = (b : ℤ) := by rw [← hb]
    have hab2 : (a : ℤ) = (b : ℤ) := by rw [← h1, h2]
    have : a = b := by exact_mod_cast hab2
    omega

lemma rowMajorList_mem (w h : ℕ) (p : Pixel) :
    p ∈ rowMajorList w h ↔ 0 ≤ p.x ∧ p.x < w ∧ 0 ≤ p.y ∧ p.y < h := by
  unfold rowMajorList
  simp only [List.mem_flatMap, List.mem_map, List.mem_range]
  constructor
  · rintro ⟨y, hy, x, hx, rfl⟩
    refine ⟨?_, ?_, ?_, ?_⟩
    · show (0 : ℤ) ≤ (x : ℤ); positivity
    · show (x : ℤ) < (w : ℤ); exact_mod_cast hx
    · show (0 : ℤ) ≤ (y : ℤ); positivity
    · show (y : ℤ) < (h : ℤ); exact_mod_cast hy
  · rintro ⟨hx0, hx1, hy0, hy1⟩
    refine ⟨p.y.toNat, ?_, p.x.toNat, ?_, ?_⟩
    · omega
    · omega
    · have e1 : (p.x.toNat : ℤ) = p.x := Int.toNat_of_nonneg hx0
      have e2 : (p.y.toNat : ℤ) = p.y := Int.toNat_of_nonneg hy0
      cases p
      simp_all

lemma rowMajorList_head? (w h : ℕ) (hw : 1 ≤ w) (hh : 1 ≤ h) :
    (rowMajorList w h).head? = some ⟨0, 0⟩ := by
  rw [← tailFrom_zero w h hh]
  unfold tailFrom
  rw [Nat.sub_zero, show w = (w - 1) + 1 by omega, List.range'_succ]
  simp

lemma rowMajorList_getLast? (w h : ℕ) (hw : 1 ≤ w) (hh : 1 ≤ h) :
    (rowMajorList w h).getLast? = some ⟨(w : ℤ) - 1, (h : ℤ) - 1⟩ := by
  unfold rowMajorList
  rw [show h = (h - 1) + 1 by omega, List.range_succ, List.flatMap_append,
    List.getLast?_append]
  have hrow : ((List.range w).map fun (x : ℕ) =>
      (⟨(x : ℤ), ((h - 1 : ℕ) : ℤ)⟩ : Pixel)).getLast? =
      some ⟨((w - 1 : ℕ) : ℤ), ((h - 1 : ℕ) : ℤ)⟩ := by
    rw [show w = (w - 1) + 1 by omega, List.range_succ, List.map_append]
    simp
  simp only [List.flatMap_cons, List.flatMap_nil, List.append_nil, hrow]
  have e1 : ((w - 1 : ℕ) : ℤ) = (w : ℤ) - 1 := by push_cast [Nat.cast_sub hw]; ring
  have e2 : ((h - 1 : ℕ) : ℤ) = (h : ℤ) - 1 := by push_cast [Nat.cast_sub hh]; ring
  rw [show ((h - 1) + 1 : ℕ) = h by omega, e1, e2]
  rfl

/-- C6: for `w, h ≥ 1`, iterating from `(0,0)` by repeated `nextPixel`
(exactly the grid iterator) visits the row-major enumeration of
`[0,w) × [0,h)`: `w*h` pixels, no repeats, exactly the in-bounds
coordinates, starting at `(0,0)`, ending at `(w-1, h-1)` after which
`nextPixel` returns none; for a 3×2 grid the sequence is
`(0,0),(1,0),(2,0),(0,1),(1,1),(2,1)`. -/
theorem rowMajor_traversal (w h : ℕ) (hw : 1 ≤ w) (hh : 1 ≤ h) :
    iterFrom w h ⟨0, 0⟩ (w * h) = rowMajorList w h ∧
    (rowMajorList w h).length = w * h ∧
    (rowMajorList w h).Nodup ∧
    (∀ p : Pixel, p ∈ rowMajorList w h ↔ 0 ≤ p.x ∧ p.x < w ∧ 0 ≤ p.y ∧ p.y < h) ∧
    (rowMajorList w h).head? = some ⟨0, 0⟩ ∧
    (rowMajorList w h).getLast? = some ⟨(w : ℤ) - 1, (h : ℤ) - 1⟩ ∧
    Pixel.nextPixel ⟨(w : ℤ) - 1, (h : ℤ) - 1⟩ w h = none ∧
    iterFrom 3 2 ⟨0, 0⟩ (3 * 2) =
      [⟨0, 0⟩, ⟨1, 0⟩, ⟨2, 0⟩, ⟨0, 1⟩, ⟨1, 1⟩, ⟨2, 1⟩] := by
  refine ⟨?_, rowMajorList_length w h, rowMajorList_nodup w h, rowMajorList_mem w h,
    rowMajorList_head? w h hw hh, rowMajorList_getLast? w h hw hh, ?_, by decide⟩
  · have := iterFrom_eq_tailFrom w h (w * h) 0 0 hw hh
      (by simp [Nat.mul_comm h w])
    rw [Nat.cast_zero] at this
    rw [this, tailFrom_zero w h hh]
  · have e1 : (w : ℤ) - 1 + 1 = (w : ℤ) := by ring
    have e2 : (h : ℤ) - 1 + 1 = (h : ℤ) := by ring
    simp [Pixel.nextPixel, e1, e2]

/-- Witness for C6 at the 3×2 grid. -/
theorem rowMajor_traversal_witness :
    iterFrom 3 2 ⟨0, 0⟩ (3 * 2) = rowMajorList 3 2 :=
  (rowMajor_traversal 3 2 (by norm_num) (by norm_num)).1

/-- `Colors.White` from `part_000`. -/
def Colors.White : Color := Color.make 255 255 255 255

/-- `Image` (`part_001`): width, height and the flat pixel array indexed
by `y * width + x`; `none` entries model JS array holes created by
writing past the end of the array. A write at a negative index does not
touch the array as a sequence — JS stores it as an object property keyed
by that index's string — so those properties are carried alongside in
`props` (lookup takes the most recent entry for a key). -/
structure Image where
  width : ℤ
  height : ℤ
  pixels : List (Option Color)
  props : List (ℤ × Color)
deriving DecidableEq, Repr

/-- The `Image` constructor (`part_001` lines 42–50) for nonnegative
dimensions: iterate the pixels in row-major order with the class's own
iterator, pushing `colorCalculator(pixel)` for each visited pixel. The
fuel `w*h + w + h + 1` exceeds the number of pixels the iterator can
yield, so the iteration always runs to its end. -/
def Image.make (w h : ℕ) (colorCalculator : Pixel → Color) : Image :=
  ⟨w, h, (iterFrom w h ⟨0, 0⟩ (w * h + w + h + 1)).map fun p => some (colorCalculator p), []⟩

/-- JS array element assignment `arr[index] = v` for an integer index
(`part_001` line 86): an in-range write replaces the element, a write past
the end pads with holes and extends the array, and a negative index
stores a non-index property, leaving the array as a sequence unchanged. -/
def jsArraySet (l : List (Option Color)) (i : ℤ) (c : Color) : List (Option Color) :=
  if 0 ≤ i then
    if i.toNat < l.length then l.set i.toNat (some c)
    else l ++ List.replicate (i.toNat - l.length) none ++ [some c]
  else l

/-- `updatePixel` (`part_001` lines 84–87): write at flat index
`y * width + x`, with no bounds check; a negative index leaves the array
sequence alone but records the value as an object property. -/
def Image.updatePixel (img : Image) (p : Pixel) (c : Color) : Image :=
  ⟨img.width, img.height, jsArraySet img.pixels (p.y * img.width + p.x) c,
    if p.y * img.width + p.x < 0 then (p.y * img.width + p.x, c) :: img.props
    else img.props⟩

/-- `getPixel` (`part_001` lines 95–98): JS indexing yields undefined
(`none`) for past-the-end indices and for holes; a negative index is a
property read, which returns whatever a previous negative-index write
stored there (or undefined). -/
def Image.getPixel (img : Image) (p : Pixel) : Option Color :=
  let index : ℤ := p.y * img.width + p.x
  if 0 ≤ index then (img.pixels[index.toNat]?).join
  else (img.props.find? fun kv => kv.1 = index).map Prod.snd

/-- A `Uint8Array` element store: out-of-range writes are ignored, and a
stored integer is reduced to `[0,255]` (the ToUint8 conversion). -/
def setU8 (buf : List ℕ) (i : ℕ) (v : ℤ) : List ℕ :=
  if i < buf.length then buf.set i (v % 256).toNat else buf

/-- One `forEach` body of `toUint8Array`: the four channel bytes of the
pixel at array position `idx` go to offsets `4*idx .. 4*idx+3`. -/
def writePixel (buf : List ℕ) (idx : ℕ) (c : Color) : List ℕ :=
  setU8 (setU8 (setU8 (setU8 buf (4 * idx) c.r) (4 * idx + 1) c.g) (4 * idx + 2) c.b)
    (4 * idx + 3) c.a

/-- The `forEach` loop of `toUint8Array` (`part_001` lines 106–116);
`forEach` skips holes, leaving their bytes at the initial zero. -/
def writeAll (buf : List ℕ) (off : ℕ) : List (Option Color) → List ℕ
  | [] => buf
  | oc :: cs =>
    writeAll (match oc with
              | some c => writePixel buf off c
              | none => buf) (off + 1) cs

/-- `toUint8Array` (`part_001` lines 106–116): a zero-initialized buffer
of `width*height*4` bytes filled by the `forEach` loop. -/
def Image.toUint8Array (img : Image) : List ℕ :=
  writeAll (List.replicate (img.width * img.height * 4).toNat 0) 0 img.pixels

lemma setU8_length (buf : List ℕ) (i : ℕ) (v : ℤ) :
    (setU8 buf i v).length = buf.length := by
  unfold setU8; split_ifs <;> simp

lemma writePixel_length (buf : List ℕ) (idx : ℕ) (c : Color) :
    (writePixel buf idx c).length = buf.length := by
  simp [writePixel, setU8_length]

lemma writeAll_length :
    ∀ (cs : List (Option Color)) (buf : List ℕ) (off : ℕ),
      (writeAll buf off cs).length = buf.length := by
  intro cs
  induction cs with
  | nil => intro buf off; rfl
  | cons oc cs ih =>
    intro buf off
    cases oc with
    | none => simpa [writeAll] using ih _ (off + 1)
    | some c => simp [writeAll, ih, writePixel_length]

lemma setU8_getElem?_ne (buf : List ℕ) (i : ℕ) (v : ℤ) (j : ℕ) (h : j ≠ i) :
    (setU8 buf i v)[j]? = buf[j]? := by
  unfold setU8
  split_ifs with hi
  · exact List.getElem?_set_ne (Ne.symm h)
  · rfl

lemma setU8_getElem?_self (buf : List ℕ) (i : ℕ) (v : ℤ) (h : i < buf.length) :
    (setU8 buf i v)[i]? = some ((v % 256).toNat) := by
  unfold setU8
  rw [if_pos h]
  simp [List.getElem?_set_self h]

lemma writePixel_getElem?_lt (buf : List ℕ) (idx : ℕ) (c : Color) (j : ℕ)
    (h : j < 4 * idx) : (writePixel buf idx c)[j]? = buf[j]? := by
  unfold writePixel
  rw [setU8_getElem?_ne _ _ _ _ (by omega), setU8_getElem?_ne _ _ _ _ (by omega),
    setU8_getElem?_ne _ _ _ _ (by omega), setU8_getElem?_ne _ _ _ _ (by omega)]

lemma writeAll_getElem?_lt :
    ∀ (cs : List (Option Color)) (buf : List ℕ) (off j : ℕ), j < 4 * off →
      (writeAll buf off cs)[j]? = buf[j]? := by
  intro cs
  induction cs with
  | nil => intro buf off j _; rfl
  | cons oc cs ih =>
    intro buf off j hj
    cases oc with
    | none =>
      show (writeAll buf (off + 1) cs)[j]? = buf[j]?
      exact ih buf (off + 1) j (by omega)
    | some c =>
      show (writeAll (writePixel buf off c) (off + 1) cs)[j]? = buf[j]?
      rw [ih _ (off + 1) j (by omega), writePixel_getElem?_lt _ _ _ _ hj]

lemma writePixel_getElem?_self (buf : List ℕ) (idx : ℕ) (c : Color)
    (h : 4 * idx + 3 < buf.length) :
    (writePixel buf idx c)[4 * idx]? = some ((c.r % 256).toNat) ∧
    (writePixel buf idx c)[4 * idx + 1]? = some ((c.g % 256).toNat) ∧
    (writePixel buf idx c)[4 * idx + 2]? = some ((c.b % 256).toNat) ∧
    (writePixel buf idx c)[4 * idx + 3]? = some ((c.a % 256).toNat) := by
  have l1 : (setU8 buf (4 * idx) c.r).length = buf.length := setU8_length _ _ _
  have l2 : (setU8 (setU8 buf (4 * idx) c.r) (4 * idx + 1) c.g).length = buf.length := by
    rw [setU8_length, l1]
  have l3 : (setU8 (setU8 (setU8 buf (4 * idx) c.r) (4 * idx + 1) c.g)
      (4 * idx + 2) c.b).length = buf.length := by
    rw [setU8_length, l2]
  refine ⟨?_, ?_, ?_, ?_⟩
  · unfold writePixel
    rw [setU8_getElem?_ne _ _ _ _ (by omega), setU8_getElem?_ne _ _ _ _ (by omega),
      setU8_getElem?_ne _ _ _ _ (by omega), setU8_getElem?_self _ _ _ (by omega)]
  · unfold writePixel
    rw [setU8_getElem?_ne _ _ _ _ (by omega), setU8_getElem?_ne _ _ _ _ (by omega),
      setU8_getElem?_self _ _ _ (by omega)]
  · unfold writePixel
    rw [setU8_getElem?_ne _ _ _ _ (by omega),
      setU8_getElem?_self _ _ _ (by omega)]
  · unfold writePixel
    rw [setU8_getElem?_self _ _ _ (by omega)]

lemma writeAll_cons_some (buf : List ℕ) (off : ℕ) (c : Color) (cs : List (Option Color)) :
    writeAll buf off (some c :: cs) = writeAll (writePixel buf off c) (off + 1) cs := rfl

lemma writeAll_cons_none (buf : List ℕ) (off : ℕ) (cs : List (Option Color)) :
    writeAll buf off (none :: cs) = writeAll buf (off + 1) cs := rfl

lemma writeAll_block :
    ∀ (cs : List (Option Color)) (buf : List ℕ) (off i : ℕ) (c : Color),
      4 * (off + cs.length) ≤ buf.length → cs[i]? = some (some c) →
      ((writeAll buf off cs)[4 * (off + i)]? = some ((c.r % 256).toNat) ∧
       (writeAll buf off cs)[4 * (off + i) + 1]? = some ((c.g % 256).toNat) ∧
       (writeAll buf off cs)[4 * (off + i) + 2]? = some ((c.b % 256).toNat) ∧
       (writeAll buf off cs)[4 * (off + i) + 3]? = some ((c.a % 256).toNat)) := by
  intro cs
  induction cs with
  | nil => intro buf off i c _ hc; simp at hc
  | cons oc cs ih =>
    intro buf off i c hbound hc
    cases i with
    | zero =>
      have hoc : oc = some c := by simpa using hc
      subst hoc
      have hlen3 : 4 * off + 3 < buf.length := by
        simp only [List.length_cons] at hbound; omega
      have hwp := writePixel_getElem?_self buf off c hlen3
      rw [writeAll_cons_some]
      simp only [Nat.add_zero]
      refine ⟨?_, ?_, ?_, ?_⟩
      · rw [writeAll_getElem?_lt cs (writePixel buf off c) (off + 1) (4 * off) (by omega)]
        exact hwp.1
      · rw [writeAll_getElem?_lt cs (writePixel buf off c) (off + 1) (4 * off + 1) (by omega)]
        exact hwp.2.1
      · rw [writeAll_getElem?_lt cs (writePixel buf off c) (off + 1) (4 * off + 2) (by omega)]
        exact hwp.2.2.1
      · rw [writeAll_getElem?_lt cs (writePixel buf off c) (off + 1) (4 * off + 3) (by omega)]
        exact hwp.2.2.2
    | succ i =>
      have hc2 : cs[i]? = some (some c) := by simpa using hc
      have hbound2 : 4 * ((off + 1) + cs.length) ≤ buf.length := by
        simp only [List.length_cons] at hbound; omega
      have harith : (off + 1) + i = off + (i + 1) := by omega
      cases oc with
      | none =>
        rw [writeAll_cons_none]
        have := ih buf (off + 1) i c hbound2 hc2
        rw [harith] at this
        exact this
      | some cHead =>
        rw [writeAll_cons_some]
        have := ih (writePixel buf off cHead) (off + 1) i c
          (by rw [writePixel_length]; exact hbound2) hc2
        rw [harith] at this
        exact this

lemma rowMajorList_getElem (w h : ℕ) :
    ∀ y x : ℕ, x < w → y < h →
      (rowMajorList w h)[y * w + x]? = some (⟨(x : ℤ), (y : ℤ)⟩ : Pixel) := by
  induction h with
  | zero => intro y x _ hy; omega
  | succ n ih =>
    intro y x hx hy
    have hsplit : rowMajorList w (n + 1) =
        rowMajorList w n ++
          ((List.range w).map fun (c : ℕ) => (⟨(c : ℤ), (n : ℤ)⟩ : Pixel)) := by
      unfold rowMajorList
      rw [List.range_succ, List.flatMap_append]
      simp
    rw [hsplit]
    by_cases hyn : y < n
    · rw [List.getElem?_append_left]
      · exact ih y x hx hyn
      · rw [rowMajorList_length]
        calc y * w + x < y * w + w := by omega
          _ = (y + 1) * w := by ring
          _ ≤ n * w := Nat.mul_le_mul_right w (by omega)
          _ = w * n := Nat.mul_comm n w
    · have hy2 : y = n := by omega
      subst hy2
      rw [List.getElem?_append_right (by rw [rowMajorList_length, Nat.mul_comm w y]; omega)]
      rw [rowMajorList_length]
      have harith : y * w + x - w * y = x := by rw [Nat.mul_comm w y]; omega
      rw [harith]
      simp [List.getElem?_range hx]

lemma image_make_pixels (w h : ℕ) (hw : 1 ≤ w) (hh : 1 ≤ h) (f : Pixel → Color) :
    (Image.make w h f).pixels = (rowMajorList w h).map fun p => some (f p) := by
  unfold Image.make
  have hiter := iterFrom_eq_tailFrom w h (w * h + w + h + 1) 0 0 hw hh
    (by simp only [Nat.sub_zero, Nat.mul_comm h w]; omega)
  rw [Nat.cast_zero] at hiter
  rw [hiter, tailFrom_zero w h hh]

/-- C3 counterexample: a 0×0 grid's backing sequence has length 1 (the
iterator always yields `(0,0)` before checking anything), not `0*0 = 0`;
and an out-of-bounds Set at `(5,5)` on a 2×2 grid grows the sequence from
4 to 16 entries instead of preserving its length. -/
theorem grid_length_counterexample :
    (Image.make 0 0 (fun _ => Colors.White)).pixels.length = 1 ∧
    ((Image.make 2 2 (fun _ => Colors.White)).updatePixel ⟨5, 5⟩
      (Color.make 255 0 0 255)).pixels.length = 16 := by
  decide

/-- C3 amended: for `w, h ≥ 1` the backing sequence has length exactly
`w*h` immediately after construction, with cell `(x,y)` living at flat
index `y*w + x`; a Set whose flat index lies inside the sequence (in
particular every in-bounds Set) preserves the length, while a Set whose
flat index is at or past the end grows the sequence to `index + 1`. -/
theorem grid_length_invariant (w h : ℕ) (f : Pixel → Color) (hw : 1 ≤ w) (hh : 1 ≤ h) :
    (Image.make w h f).pixels.length = w * h ∧
    (∀ x y : ℕ, x < w → y < h →
      (Image.make w h f).pixels[y * w + x]? = some (some (f ⟨(x : ℤ), (y : ℤ)⟩))) ∧
    (∀ (img : Image) (p : Pixel) (c : Color),
      0 ≤ p.y * img.width + p.x → p.y * img.width + p.x < (img.pixels.length : ℤ) →
      (img.updatePixel p c).pixels.length = img.pixels.length) ∧
    (∀ (img : Image) (p : Pixel) (c : Color),
      (img.pixels.length : ℤ) ≤ p.y * img.width + p.x →
      (img.updatePixel p c).pixels.length = (p.y * img.width + p.x).toNat + 1) := by
  refine ⟨?_, ?_, ?_, ?_⟩
  · rw [image_make_pixels w h hw hh f, List.length_map, rowMajorList_length]
  · intro x y hx hy
    rw [image_make_pixels w h hw hh f]
    simp [rowMajorList_getElem w h y x hx hy]
  · intro img p c h0 h1
    unfold Image.updatePixel jsArraySet
    rw [if_pos h0, if_pos (by omega)]
    simp
  · intro img p c hge
    have h0 : 0 ≤ p.y * img.width + p.x := le_trans (by positivity) hge
    unfold Image.updatePixel jsArraySet
    rw [if_pos h0, if_neg (by omega)]
    simp only [List.length_append, List.length_replicate, List.length_cons,
      List.length_nil]
    omega

/-- Witness for C3 at a concrete 1×1 grid and a concrete in-range Set. -/
theorem grid_length_invariant_witness :
    (Image.make 1 1 (fun _ => Colors.White)).pixels.length = 1 * 1 :=
  (grid_length_invariant 1 1 (fun _ => Colors.White) (by norm_num) (by norm_num)).1

/-- C9 counterexample: `Get` does not always return "no value" for a flat
index outside the backing sequence. On a 2×1 grid, `updatePixel` at
`(-1,0)` executes `pixels[-1] = red`, which JS stores as an object
property (the array keeps its 2 elements), and `getPixel` at `(-1,0)`
then reads `pixels[-1]` and returns that Color. -/
theorem getPixel_negative_counterexample :
    ((Image.make 2 1 (fun _ => Colors.White)).updatePixel ⟨-1, 0⟩
        (Color.make 255 0 0 255)).getPixel ⟨-1, 0⟩ = some (Color.make 255 0 0 255) ∧
    (⟨-1, 0⟩ : Pixel).y * (Image.make 2 1 (fun _ => Colors.White)).width +
        (⟨-1, 0⟩ : Pixel).x < 0 ∧
    ((Image.make 2 1 (fun _ => Colors.White)).updatePixel ⟨-1, 0⟩
        (Color.make 255 0 0 255)).pixels.length = 2 := by
  decide

/-- C9 amended: `getPixel` and `updatePixel` are total — neither has an
error path for any coordinate, and `updatePixel` always returns a grid
with the same dimensions. `getPixel` returns the sequence element at flat
index `y*width+x` when that index lies in `[0, width*height)`, and no
value (`none`) when the index is nonnegative but at or past the end of
the sequence. At a negative flat index the access is a JS property
access, not a sequence access: `getPixel` returns whatever Color a
previous `updatePixel` stored under that same negative index (in
particular `some c` right after such a Set), and no value only when
nothing was stored there. -/
theorem getPixel_total (w h : ℕ) (ps : List (Option Color))
    (prs : List (ℤ × Color)) (p : Pixel)
    (hlen : ps.length = w * h)
    (hdense : ∀ oc ∈ ps, oc.isSome = true) :
    (0 ≤ p.y * (w : ℤ) + p.x → p.y * (w : ℤ) + p.x < ((w * h : ℕ) : ℤ) →
      ∃ c : Color, ps[(p.y * (w : ℤ) + p.x).toNat]? = some (some c) ∧
        Image.getPixel ⟨w, h, ps, prs⟩ p = some c) ∧
    (0 ≤ p.y * (w : ℤ) + p.x → ((w * h : ℕ) : ℤ) ≤ p.y * (w : ℤ) + p.x →
      Image.getPixel ⟨w, h, ps, prs⟩ p = none) ∧
    (p.y * (w : ℤ) + p.x < 0 →
      Image.getPixel ⟨w, h, ps, prs⟩ p =
        (prs.find? fun kv => kv.1 = p.y * (w : ℤ) + p.x).map Prod.snd) ∧
    (p.y * (w : ℤ) + p.x < 0 → ∀ c : Color,
      ((⟨w, h, ps, prs⟩ : Image).updatePixel p c).getPixel p = some c) ∧
    (∀ c : Color, ((⟨w, h, ps, prs⟩ : Image).updatePixel p c).width = w ∧
      ((⟨w, h, ps, prs⟩ : Image).updatePixel p c).height = h) := by
  refine ⟨?_, ?_, ?_, ?_, fun c => ⟨rfl, rfl⟩⟩
  · intro h0 h1
    have hidx : (p.y * (w : ℤ) + p.x).toNat < ps.length := by omega
    obtain ⟨oc, hoc⟩ : ∃ oc, ps[(p.y * (w : ℤ) + p.x).toNat]? = some oc := by
      rw [List.getElem?_eq_getElem hidx]
      exact ⟨_, rfl⟩
    have hmem : oc ∈ ps := by
      have := List.getElem?_eq_getElem hidx
      rw [this] at hoc
      cases hoc
      exact List.getElem_mem hidx
    have hsome := hdense oc hmem
    obtain ⟨c, rfl⟩ := Option.isSome_iff_exists.mp hsome
    refine ⟨c, hoc, ?_⟩
    show (if 0 ≤ p.y * (w : ℤ) + p.x then (ps[(p.y * (w : ℤ) + p.x).toNat]?).join
      else (prs.find? fun kv => kv.1 = p.y * (w : ℤ) + p.x).map Prod.snd) = some c
    rw [if_pos h0, hoc]
    rfl
  · intro h0 h1
    show (if 0 ≤ p.y * (w : ℤ) + p.x then (ps[(p.y * (w : ℤ) + p.x).toNat]?).join
      else (prs.find? fun kv => kv.1 = p.y * (w : ℤ) + p.x).map Prod.snd) = none
    rw [if_pos h0]
    have hge : ps.length ≤ (p.y * (w : ℤ) + p.x).toNat := by omega
    rw [List.getElem?_eq_none hge]
    rfl
  · intro hneg
    show (if 0 ≤ p.y * (w : ℤ) + p.x then (ps[(p.y * (w : ℤ) + p.x).toNat]?).join
      else (prs.find? fun kv => kv.1 = p.y * (w : ℤ) + p.x).map Prod.snd) = _
    rw [if_neg (by omega)]
  · intro hneg c
    show Image.getPixel
      ⟨w, h, jsArraySet ps (p.y * (w : ℤ) + p.x) c,
        if p.y * (w : ℤ) + p.x < 0 then (p.y * (w : ℤ) + p.x, c) :: prs else prs⟩ p = some c
    rw [if_pos hneg]
    show (if 0 ≤ p.y * (w : ℤ) + p.x
      then ((jsArraySet ps (p.y * (w : ℤ) + p.x) c)[(p.y * (w : ℤ) + p.x).toNat]?).join
      else (((p.y * (w : ℤ) + p.x, c) :: prs).find?
        fun kv => kv.1 = p.y * (w : ℤ) + p.x).map Prod.snd) = some c
    rw [if_neg (by omega), List.find?_cons_of_pos _ (by simp)]
    rfl

/-- Witness for C9 on a 1×1 grid at the in-bounds coordinate `(0,0)`. -/
theorem getPixel_total_witness :
    ∃ c : Color,
      ([some Colors.White] : List (Option Color))[((⟨0, 0⟩ : Pixel).y * ((1 : ℕ) : ℤ) +
        (⟨0, 0⟩ : Pixel).x).toNat]? = some (some c) ∧
      Image.getPixel ⟨(1 : ℕ), (1 : ℕ), [some Colors.White], []⟩ ⟨0, 0⟩ = some c :=
  (getPixel_total 1 1 [some Colors.White] [] ⟨0, 0⟩ (by decide) (by decide)).1
    (by decide) (by decide)

/-- C10: an in-bounds `updatePixel` at `(x,y)` changes only the sequence
element at flat index `y*width+x`: every other element, as well as the
grid's width and height, are unchanged; the targeted element becomes the
new color. -/
theorem updatePixel_frame (w h : ℕ) (ps : List (Option Color))
    (prs : List (ℤ × Color)) (p : Pixel) (c : Color)
    (hlen : ps.length = w * h)
    (hx0 : 0 ≤ p.x) (hx1 : p.x < (w : ℤ)) (hy0 : 0 ≤ p.y) (hy1 : p.y < (h : ℤ)) :
    ((⟨w, h, ps, prs⟩ : Image).updatePixel p c).width = w ∧
    ((⟨w, h, ps, prs⟩ : Image).updatePixel p c).height = h ∧
    ((⟨w, h, ps, prs⟩ : Image).updatePixel p c).pixels.length = ps.length ∧
    (∀ j : ℕ, j ≠ (p.y * (w : ℤ) + p.x).toNat →
      ((⟨w, h, ps, prs⟩ : Image).updatePixel p c).pixels[j]? = ps[j]?) ∧
    ((⟨w, h, ps, prs⟩ : Image).updatePixel p c).pixels[(p.y * (w : ℤ) + p.x).toNat]? =
      some (some c) := by
  have h0 : 0 ≤ p.y * (w : ℤ) + p.x := by positivity
  have h1 : p.y * (w : ℤ) + p.x < ((w : ℤ) * h) := by
    have hyw : p.y * (w : ℤ) ≤ ((h : ℤ) - 1) * w :=
      mul_le_mul_of_nonneg_right (by omega) (by positivity)
    nlinarith
  have hidx : (p.y * (w : ℤ) + p.x).toNat < ps.length := by
    have : ((w : ℤ) * h) = ((w * h : ℕ) : ℤ) := by push_cast; ring
    omega
  have hset : ((⟨w, h, ps, prs⟩ : Image).updatePixel p c).pixels =
      ps.set (p.y * (w : ℤ) + p.x).toNat (some c) := by
    show jsArraySet ps (p.y * (w : ℤ) + p.x) c = _
    unfold jsArraySet
    rw [if_pos h0, if_pos hidx]
  refine ⟨rfl, rfl, ?_, ?_, ?_⟩
  · rw [hset, List.length_set]
  · intro j hj
    rw [hset]
    exact List.getElem?_set_ne (Ne.symm hj)
  · rw [hset]
    exact List.getElem?_set_self hidx

/-- Witness for C10 on a 2×1 grid, updating `(1,0)` and reading `(0,0)`. -/
theorem updatePixel_frame_witness :
    ((⟨(2 : ℕ), (1 : ℕ), [some Colors.White, some Colors.White], []⟩ : Image).updatePixel
      ⟨1, 0⟩ (Color.make 255 0 0 255)).pixels[0]? =
      ([some Colors.White, some Colors.White] : List (Option Color))[0]? :=
  (updatePixel_frame 2 1 [some Colors.White, some Colors.White] [] ⟨1, 0⟩
    (Color.make 255 0 0 255) (by decide) (by decide) (by decide) (by decide)
    (by decide)).2.2.2.1 0 (by decide)

/-- C7: on a grid whose backing sequence has the invariant length `w*h`,
`toUint8Array` returns a byte sequence of length exactly `w*h*4`, and for
every in-bounds coordinate `(x,y)` holding an in-range color, the four
bytes at offsets `4*(y*w+x) .. 4*(y*w+x)+3` are that cell's R, G, B, A
channels; concretely the 2×1 grid `[Red, Blue]` serializes to
`[255,0,0,255, 0,0,255,255]`. -/
theorem toUint8Array_layout (w h : ℕ) (ps : List (Option Color))
    (prs : List (ℤ × Color)) (hlen : ps.length = w * h) :
    (Image.toUint8Array ⟨w, h, ps, prs⟩).length = w * h * 4 ∧
    (∀ x y : ℕ, ∀ c : Color, x < w → y < h →
      ps[y * w + x]? = some (some c) → c.InRange →
      ((Image.toUint8Array ⟨w, h, ps, prs⟩)[4 * (y * w + x)]? = some c.r.toNat ∧
       (Image.toUint8Array ⟨w, h, ps, prs⟩)[4 * (y * w + x) + 1]? = some c.g.toNat ∧
       (Image.toUint8Array ⟨w, h, ps, prs⟩)[4 * (y * w + x) + 2]? = some c.b.toNat ∧
       (Image.toUint8Array ⟨w, h, ps, prs⟩)[4 * (y * w + x) + 3]? = some c.a.toNat)) ∧
    Image.toUint8Array ⟨(2 : ℕ), (1 : ℕ),
        [some (Color.make 255 0 0 255), some (Color.make 0 0 255 255)], []⟩ =
      [255, 0, 0, 255, 0, 0, 255, 255] := by
  have hcast : ((w : ℤ) * (h : ℤ) * 4).toNat = w * h * 4 := by
    have e : ((w : ℤ) * (h : ℤ) * 4) = ((w * h * 4 : ℕ) : ℤ) := by push_cast; ring
    rw [e, Int.toNat_natCast]
  have hbuf : (List.replicate ((w : ℤ) * (h : ℤ) * 4).toNat (0 : ℕ)).length = w * h * 4 := by
    rw [List.length_replicate, hcast]
  refine ⟨?_, ?_, by decide⟩
  · show (writeAll (List.replicate ((w : ℤ) * (h : ℤ) * 4).toNat 0) 0 ps).length = w * h * 4
    rw [writeAll_length, hbuf]
  · intro x y c hx hy hcell hcr
    obtain ⟨hr0, hr1, hg0, hg1, hb0, hb1, ha0, ha1⟩ := hcr
    have hbound : 4 * (0 + ps.length) ≤
        (List.replicate ((w : ℤ) * (h : ℤ) * 4).toNat (0 : ℕ)).length := by
      rw [hbuf, hlen]
      omega
    have hblk := writeAll_block ps (List.replicate ((w : ℤ) * (h : ℤ) * 4).toNat 0)
      0 (y * w + x) c hbound hcell
    simp only [Nat.zero_add] at hblk
    have er : (c.r % 256).toNat = c.r.toNat := by
      rw [Int.emod_eq_of_lt hr0 (by omega)]
    have eg : (c.g % 256).toNat = c.g.toNat := by
      rw [Int.emod_eq_of_lt hg0 (by omega)]
    have eb : (c.b % 256).toNat = c.b.toNat := by
      rw [Int.emod_eq_of_lt hb0 (by omega)]
    have ea : (c.a % 256).toNat = c.a.toNat := by
      rw [Int.emod_eq_of_lt ha0 (by omega)]
    rw [er, eg, eb, ea] at hblk
    exact hblk

/-- Witness for C7 at the concrete 2×1 Red/Blue grid. -/
theorem toUint8Array_layout_witness :
    Image.toUint8Array ⟨(2 : ℕ), (1 : ℕ),
        [some (Color.make 255 0 0 255), some (Color.make 0 0 255 255)], []⟩ =
      [255, 0, 0, 255, 0, 0, 255, 255] :=
  (toUint8Array_layout 2 1 [some (Color.make 255 0 0 255), some (Color.make 0 0 255 255)]
    [] (by decide)).2.2

/-- JS whitespace characters relevant to `parseInt` (code points). -/
def jsWhitespaceChar (c : Char) : Bool :=
  c.toNat = 32 || c.toNat = 9 || c.toNat = 10 || c.toNat = 13 ||
    c.toNat = 11 || c.toNat = 12

/-- The digits accepted by `parseInt(_, 16)`: `0-9`, `a-f`, `A-F`. -/
def isHexDigitChar (c : Char) : Bool :=
  (48 ≤ c.toNat && c.toNat ≤ 57) || (97 ≤ c.toNat && c.toNat ≤ 102) ||
    (65 ≤ c.toNat && c.toNat ≤ 70)

/-- Numeric value of a hex digit. -/
def hexVal (c : Char) : ℤ :=
  if 48 ≤ c.toNat && c.toNat ≤ 57 then (c.toNat : ℤ) - 48
  else if 97 ≤ c.toNat && c.toNat ≤ 102 then (c.toNat : ℤ) - 97 + 10
  else (c.toNat : ℤ) - 65 + 10

/-- ECMAScript `parseInt(s, 16)`: skip leading whitespace, take an
optional sign, strip an optional `0x`/`0X` prefix, then read the longest
run of hex digits; the result is NaN (`none`) iff that run is empty.
Trailing non-digit characters are ignored. -/
def jsParseIntHex (s : List Char) : Option ℤ :=
  let s1 := s.dropWhile jsWhitespaceChar
  let sign : ℤ := if s1.head? = some '-' then -1 else 1
  let s2 := if s1.head? = some '-' ∨ s1.head? = some '+' then s1.tail else s1
  let s3 := if s2.head? = some '0' ∧ (s2.tail.head? = some 'x' ∨ s2.tail.head? = some 'X')
            then s2.tail.tail else s2
  let digits := s3.takeWhile isHexDigitChar
  if digits.isEmpty then none
  else some (sign * digits.foldl (fun acc c => 16 * acc + hexVal c) 0)

/-- The two error kinds of `Color` construction from hex. -/
inductive ColorErr where
  | invalidHexFormat : ColorErr
  | invalidComponent : ColorErr
deriving DecidableEq, Repr

/-- `hex.startsWith('#') → hex.slice(1)` from `Color.fromHex`. -/
def strippedOf (s : List Char) : List Char :=
  match s with
  | '#' :: rest => rest
  | _ => s

/-- The final stage of `fromHex`: parse the four 2-character slices of an
8-character string and hand them to the constructor; the constructor
throws `InvalidComponent` iff some slice parsed to NaN. -/
def parseHex8 (s3 : List Char) : Except ColorErr Color :=
  match jsParseIntHex (s3.take 2), jsParseIntHex ((s3.drop 2).take 2),
      jsParseIntHex ((s3.drop 4).take 2), jsParseIntHex ((s3.drop 6).take 2) with
  | some r, some g, some b, some a => .ok (Color.make r g b a)
  | _, _, _, _ => .error .invalidComponent

/-- `Color.fromHex` (`color.ts` lines 102–121) on a string given as its
character list: strip an optional leading `#`; for 3 characters double
each and append `FF`; for 6 characters append `FF`; any other resulting
length than 8 is the format error; otherwise parse the four slices. -/
def fromHexL (s : List Char) : Except ColorErr Color :=
  let s1 := strippedOf s
  let s2 := if s1.length = 3 then (s1.flatMap fun c => [c, c]) ++ ['F', 'F'] else s1
  let s3 := if s2.length = 6 then s2 ++ ['F', 'F'] else s2
  if s3.length ≠ 8 then .error .invalidHexFormat else parseHex8 s3

lemma length_double (l : List Char) : (l.flatMap fun c => [c, c]).length = 2 * l.length := by
  induction l with
  | nil => rfl
  | cons c l ih => simp only [List.flatMap_cons, List.length_append, List.length_cons,
      List.length_nil, ih]; omega

lemma parseHex8_ne_format (s3 : List Char) :
    parseHex8 s3 ≠ Except.error ColorErr.invalidHexFormat := by
  unfold parseHex8
  cases h1 : jsParseIntHex (s3.take 2) <;>
    cases h2 : jsParseIntHex ((s3.drop 2).take 2) <;>
      cases h3 : jsParseIntHex ((s3.drop 4).take 2) <;>
        cases h4 : jsParseIntHex ((s3.drop 6).take 2) <;> simp

lemma hex_not_ws {c : Char} (h : isHexDigitChar c = true) : jsWhitespaceChar c = false := by
  unfold isHexDigitChar at h
  simp only [Bool.or_eq_true, Bool.and_eq_true, decide_eq_true_eq] at h
  unfold jsWhitespaceChar
  simp only [Bool.or_eq_false_iff, decide_eq_false_iff_not]
  omega

lemma jsParseIntHex_pair (a b : Char)
    (ha : isHexDigitChar a = true) (hb : isHexDigitChar b = true) :
    (jsParseIntHex [a, b]).isSome = true := by
  have hd : List.dropWhile jsWhitespaceChar [a, b] = [a, b] := by
    rw [List.dropWhile_cons, hex_not_ws ha]
    simp
  have hsign : ¬ (([a, b] : List Char).head? = some '-' ∨
      ([a, b] : List Char).head? = some '+') := by
    simp only [List.head?_cons, Option.some.injEq]
    rintro (rfl | rfl)
    · exact absurd ha (by decide)
    · exact absurd ha (by decide)
  have hsign1 : ¬ (([a, b] : List Char).head? = some '-') := fun hc => hsign (Or.inl hc)
  have h0x : ¬ (([a, b] : List Char).head? = some '0' ∧
      (([a, b] : List Char).tail.head? = some 'x' ∨
       ([a, b] : List Char).tail.head? = some 'X')) := by
    rintro ⟨-, h2 | h2⟩ <;>
      · simp only [List.tail_cons, List.head?_cons, Option.some.injEq] at h2
        subst h2
        exact absurd hb (by decide)
  have htake : List.takeWhile isHexDigitChar [a, b] = [a, b] := by
    rw [List.takeWhile_cons, ha]
    simp only [if_true]
    rw [List.takeWhile_cons, hb]
    rfl
  simp only [jsParseIntHex, hd, if_neg hsign, if_neg hsign1, if_neg h0x, htake]
  simp

lemma parseHex8_ok (t : List Char) (hlen : t.length = 8)
    (hhex : ∀ c ∈ t, isHexDigitChar c = true) :
    ∃ col, parseHex8 t = Except.ok col := by
  rcases t with _ | ⟨c1, t⟩; · simp at hlen
  rcases t with _ | ⟨c2, t⟩; · simp at hlen
  rcases t with _ | ⟨c3, t⟩; · simp at hlen
  rcases t with _ | ⟨c4, t⟩; · simp at hlen
  rcases t with _ | ⟨c5, t⟩; · simp at hlen
  rcases t with _ | ⟨c6, t⟩; · simp at hlen
  rcases t with _ | ⟨c7, t⟩; · simp at hlen
  rcases t with _ | ⟨c8, t⟩; · simp at hlen
  rcases t with _ | ⟨c9, t⟩
  · have h1 := hhex c1 (by simp)
    have h2 := hhex c2 (by simp)
    have h3 := hhex c3 (by simp)
    have h4 := hhex c4 (by simp)
    have h5 := hhex c5 (by simp)
    have h6 := hhex c6 (by simp)
    have h7 := hhex c7 (by simp)
    have h8 := hhex c8 (by simp)
    obtain ⟨r, hr⟩ := Option.isSome_iff_exists.mp (jsParseIntHex_pair c1 c2 h1 h2)
    obtain ⟨g, hg⟩ := Option.isSome_iff_exists.mp (jsParseIntHex_pair c3 c4 h3 h4)
    obtain ⟨b, hb⟩ := Option.isSome_iff_exists.mp (jsParseIntHex_pair c5 c6 h5 h6)
    obtain ⟨a, ha⟩ := Option.isSome_iff_exists.mp (jsParseIntHex_pair c7 c8 h7 h8)
    unfold parseHex8
    rw [show ([c1, c2, c3, c4, c5, c6, c7, c8] : List Char).take 2 = [c1, c2] from rfl,
      show (([c1, c2, c3, c4, c5, c6, c7, c8] : List Char).drop 2).take 2 = [c3, c4] from rfl,
      show (([c1, c2, c3, c4, c5, c6, c7, c8] : List Char).drop 4).take 2 = [c5, c6] from rfl,
      show (([c1, c2, c3, c4, c5, c6, c7, c8] : List Char).drop 6).take 2 = [c7, c8] from rfl,
      hr, hg, hb, ha]
    exact ⟨_, rfl⟩
  · simp at hlen

lemma fromHexL_format_iff (s : List Char) :
    fromHexL s = Except.error ColorErr.invalidHexFormat ↔
      ((strippedOf s).length ≠ 3 ∧ (strippedOf s).length ≠ 6 ∧
        (strippedOf s).length ≠ 8) := by
  simp only [fromHexL]
  by_cases h3 : (strippedOf s).length = 3
  · rw [if_pos h3]
    have hlen8 : (((strippedOf s).flatMap fun c => [c, c]) ++ ['F', 'F']).length = 8 := by
      rw [List.length_append, length_double, h3]; rfl
    rw [if_neg (show ¬ ((((strippedOf s).flatMap fun c => [c, c]) ++
        ['F', 'F']).length = 6) by omega)]
    rw [if_neg (show ¬ ((((strippedOf s).flatMap fun c => [c, c]) ++
        ['F', 'F']).length ≠ 8) by omega)]
    constructor
    · intro hc; exact absurd hc (parseHex8_ne_format _)
    · rintro ⟨ha, -, -⟩; exact absurd h3 ha
  · rw [if_neg h3]
    by_cases h6 : (strippedOf s).length = 6
    · rw [if_pos h6]
      have hlen8 : ((strippedOf s) ++ ['F', 'F']).length = 8 := by
        rw [List.length_append, h6]; rfl
      rw [if_neg (show ¬ (((strippedOf s) ++ ['F', 'F']).length ≠ 8) by omega)]
      constructor
      · intro hc; exact absurd hc (parseHex8_ne_format _)
      · rintro ⟨-, hb, -⟩; exact absurd h6 hb
    · rw [if_neg h6]
      by_cases h8 : (strippedOf s).length = 8
      · rw [if_neg (show ¬ ((strippedOf s).length ≠ 8) by omega)]
        constructor
        · intro hc; exact absurd hc (parseHex8_ne_format _)
        · rintro ⟨-, -, hc⟩; exact absurd h8 hc
      · rw [if_pos (show (strippedOf s).length ≠ 8 from h8)]
        simp [h3, h6, h8]

lemma fromHexL_wellformed_ok (s : List Char)
    (hhex : ∀ c ∈ strippedOf s, isHexDigitChar c = true)
    (hlen : (strippedOf s).length = 3 ∨ (strippedOf s).length = 6 ∨
      (strippedOf s).length = 8) :
    ∃ col, fromHexL s = Except.ok col := by
  simp only [fromHexL]
  rcases hlen with h3 | h6 | h8
  · rw [if_pos h3]
    have hlen8 : (((strippedOf s).flatMap fun c => [c, c]) ++ ['F', 'F']).length = 8 := by
      rw [List.length_append, length_double, h3]; rfl
    rw [if_neg (show ¬ ((((strippedOf s).flatMap fun c => [c, c]) ++
        ['F', 'F']).length = 6) by omega)]
    rw [if_neg (show ¬ ((((strippedOf s).flatMap fun c => [c, c]) ++
        ['F', 'F']).length ≠ 8) by omega)]
    apply parseHex8_ok _ hlen8
    intro c hc
    rcases List.mem_append.mp hc with hc | hc
    · obtain ⟨cp, hcp, hcc⟩ := List.mem_flatMap.mp hc
      have hce : c = cp := by simpa using hcc
      exact hce ▸ hhex cp hcp
    · have hcf : c = 'F' := by simpa using hc
      subst hcf
      decide
  · rw [if_neg (show ¬ ((strippedOf s).length = 3) by omega), if_pos h6]
    have hlen8 : ((strippedOf s) ++ ['F', 'F']).length = 8 := by
      rw [List.length_append, h6]; rfl
    rw [if_neg (show ¬ (((strippedOf s) ++ ['F', 'F']).length ≠ 8) by omega)]
    apply parseHex8_ok _ hlen8
    intro c hc
    rcases List.mem_append.mp hc with hc | hc
    · exact hhex c hc
    · have hcf : c = 'F' := by simpa using hc
      subst hcf
      decide
  · rw [if_neg (show ¬ ((strippedOf s).length = 3) by omega),
      if_neg (show ¬ ((strippedOf s).length = 6) by omega),
      if_neg (show ¬ ((strippedOf s).length ≠ 8) by omega)]
    exact parseHex8_ok _ h8 hhex

/-- C4 counterexample: `fromHex` succeeds on `"#123Z56"` even though it
contains the non-hex-digit character `Z` — after appending `FF`, the
slice `"3Z"` is prefix-parsed by `parseInt` to `3`, so no error is
raised and the result is `(18, 3, 86, 255)`. -/
theorem fromHex_nonhex_counterexample :
    fromHexL ['#', '1', '2', '3', 'Z', '5', '6'] = Except.ok ⟨18, 3, 86, 255⟩ ∧
    isHexDigitChar 'Z' = false := by
  constructor
  · rfl
  · decide

/-- C4 amended: `fromHex` fails with the format error iff the length
after stripping an optional `#` is not 3, 6 or 8; a string of accepted
length consisting only of hex digits always succeeds; a string of
accepted length containing non-hex characters is never a format error —
it either succeeds (when every 2-character slice still has a parseable
prefix, e.g. `"#123Z56"`) or fails with the component error (`"#XYZ"`);
the inputs `"#XYZ"`, `"#12345"`, `""`, `"#1234567"` all fail. -/
theorem fromHex_failure_characterization :
    (∀ s : List Char, fromHexL s = Except.error ColorErr.invalidHexFormat ↔
      ((strippedOf s).length ≠ 3 ∧ (strippedOf s).length ≠ 6 ∧
        (strippedOf s).length ≠ 8)) ∧
    (∀ s : List Char, (∀ c ∈ strippedOf s, isHexDigitChar c = true) →
      ((strippedOf s).length = 3 ∨ (strippedOf s).length = 6 ∨
        (strippedOf s).length = 8) →
      ∃ col, fromHexL s = Except.ok col) ∧
    fromHexL ['#', 'X', 'Y', 'Z'] = Except.error ColorErr.invalidComponent ∧
    fromHexL ['#', '1', '2', '3', '4', '5'] = Except.error ColorErr.invalidHexFormat ∧
    fromHexL [] = Except.error ColorErr.invalidHexFormat ∧
    fromHexL ['#', '1', '2', '3', '4', '5', '6', '7'] =
      Except.error ColorErr.invalidHexFormat :=
  ⟨fromHexL_format_iff, fromHexL_wellformed_ok, rfl, rfl, rfl, rfl⟩

/-- Witness for C4: the well-formed input `"#FF8040"` succeeds. -/
theorem fromHex_failure_characterization_witness :
    ∃ col, fromHexL ['#', 'F', 'F', '8', '0', '4', '0'] = Except.ok col :=
  fromHex_failure_characterization.2.1 ['#', 'F', 'F', '8', '0', '4', '0']
    (by decide) (by decide)
